import Mathlib

/-!
A shallow embedding of `src/lib/batch.ts` (the batch-loader engine).

JS values of type `T | undefined` are modelled as `Option T` (`none` is
`undefined`).  A JS `Map` is an association list whose keys are unique by
construction (`mapSet` overwrites in place, otherwise appends), with
`has` / `get` / `set` / `delete` as in the source.

The asynchronous control flow of `dispatch` is modelled as a small-step
interpreter over an event trace: `Event.dispatch keys` is one firing of the
queued microtask (one round, the drained queue holding calls for `keys` in
order), and `Event.settle b` is the settlement of the promise returned by the
`b`-th invocation of the user batch function.  A trace is one interleaving of
the event loop.  Each queued call carries a numeric id; `results` records the
settlement of each call's promise.
-/

namespace BatchLoader

variable {Key T E : Type} [DecidableEq Key]

/-- Lookup in a JS `Map` modelled as an association list (`Map.prototype.get`
over the entries, except that presence is observable: `none` means the key is
absent, `some v` means the key maps to `v`). -/
def mapGet (m : List (Key × α)) (k : Key) : Option α :=
  (m.find? (fun p => decide (p.1 = k))).map (·.2)

/-- `Map.prototype.has`. -/
def mapHas (m : List (Key × α)) (k : Key) : Bool :=
  (mapGet m k).isSome

/-- `Map.prototype.set`: overwrite in place when the key is present, append
otherwise. -/
def mapSet (m : List (Key × α)) (k : Key) (v : α) : List (Key × α) :=
  if mapHas m k then m.map (fun p => if p.1 = k then (k, v) else p)
  else m ++ [(k, v)]

/-- `Map.prototype.delete`. -/
def mapDelete (m : List (Key × α)) (k : Key) : List (Key × α) :=
  m.filter (fun p => decide (¬ p.1 = k))

/-- The cache maps a key to a stored `T | undefined` value; `state.cache.get`
in JS returns `undefined` both for a missing key and for a stored `undefined`,
which this flattens. -/
def jsGet (cache : List (Key × Option T)) (k : Key) : Option T :=
  (mapGet cache k).getD none

/-- `Array.from(new Set(requestedKeys))`: deduplicate keeping the first
occurrence of each key, in order. -/
def dedupeFirst : List Key → List Key
  | [] => []
  | k :: ks => k :: (dedupeFirst ks).filter (fun x => decide (¬ x = k))

/-- Result of one invocation of the user batch function when it fulfills:
either an ordered array of values or a keyed `Map` (batch.ts line 6). -/
inductive BatchResult (Key T : Type) where
  | arr (vals : List T)
  | keyed (pairs : List (Key × T))
deriving DecidableEq

/-- Settlement of one invocation of the user batch function: fulfilled with a
`BatchResult`, or rejected with an error. -/
inductive BatchOutcome (Key T E : Type) where
  | ok (r : BatchResult Key T)
  | err (e : E)
deriving DecidableEq

/-- The record passed to the `onBatch` callback (batch.ts lines 57-63), minus
the `batcher` function reference. -/
structure BatchInfo (Key : Type) where
  requestedKeys : List Key
  cachedKeys : List Key
  inflightKeys : List Key
  batchedKeys : List Key
deriving DecidableEq

/-- The classification loop of `dispatch` (batch.ts lines 104-118): walk the
deduplicated keys; a key present in the cache goes to `cachedKeys`, else a key
present in the in-flight registry goes to `inflightKeys`, else it stays in
`batchedKeys`. -/
def classifyKeys (cache : List (Key × Option T)) (inflight : List (Key × Nat)) :
    List Key → BatchInfo Key
  | [] => ⟨[], [], [], []⟩
  | k :: ks =>
    let rest := classifyKeys cache inflight ks
    if mapHas cache k then
      ⟨rest.requestedKeys, k :: rest.cachedKeys, rest.inflightKeys, rest.batchedKeys⟩
    else if mapHas inflight k then
      ⟨rest.requestedKeys, rest.cachedKeys, k :: rest.inflightKeys, rest.batchedKeys⟩
    else
      ⟨rest.requestedKeys, rest.cachedKeys, rest.inflightKeys, k :: rest.batchedKeys⟩

/-- One call queued by `load` (batch.ts lines 31-33): an identity for its
promise, and its key. -/
structure QueuedCall (Key : Type) where
  id : Nat
  key : Key
deriving DecidableEq

/-- Settlement of one call's promise: `resolve(state.cache.get(key))` or
`reject(error)`. -/
inductive Outcome (T E : Type) where
  | resolved (v : Option T)
  | rejected (e : E)
deriving DecidableEq

/-- A round whose own batch (invocation `batchId`) has not settled yet: its
`then` / `catch` handlers have not run. -/
structure PendingRound (Key : Type) where
  calls : List (QueuedCall Key)
  batchId : Nat
deriving DecidableEq

/-- A round suspended inside `awaitInflight` (batch.ts lines 160-168): it
resumes, and resolves its calls from the cache, once every batch in `awaited`
has settled. -/
structure WaitingRound (Key : Type) where
  calls : List (QueuedCall Key)
  awaited : List Nat
deriving DecidableEq

/-- One invocation of the user batch function: its argument `batchedKeys`, the
settlement its promise will have, and whether it has settled yet. -/
structure BatchRecord (Key T E : Type) where
  keys : List Key
  outcome : BatchOutcome Key T E
  isSettled : Bool
deriving DecidableEq

/-- The whole state of one loader plus the bookkeeping of the interpreter.
`cache`, `inflight` are the fields of `BatchState` (the queue appears only as
the argument of a dispatch event, since it is drained atomically);
`batches` records every invocation of the user batch function, `infos` every
`onBatch` record, `results` every settled call promise. -/
structure LoaderState (Key T E : Type) where
  cache : List (Key × Option T)
  inflight : List (Key × Nat)
  batches : List (BatchRecord Key T E)
  pending : List (PendingRound Key)
  waiting : List (WaitingRound Key)
  results : List (Nat × Outcome T E)
  infos : List (BatchInfo Key)
  nextId : Nat
deriving DecidableEq

/-- The fresh state of `batch(batcher, options)` (batch.ts lines 21-29). -/
def initState : LoaderState Key T E := ⟨[], [], [], [], [], [], [], 0⟩

/-- `awaitInflight` (batch.ts lines 160-168): the set of in-flight batch
promises registered for the round's keys, snapshotted when `resolveLoaders`
runs. -/
def awaitSet (inflight : List (Key × Nat)) (calls : List (QueuedCall Key)) : List Nat :=
  @dedupeFirst Nat _ (calls.filterMap (fun c => mapGet inflight c.key))

/-- The resolution loop of `resolveLoaders` (batch.ts lines 155-157):
`loaderCall.resolve(state.cache.get(loaderCall.key))` for every queued call. -/
def resolveCallsFrom (cache : List (Key × Option T)) (calls : List (QueuedCall Key)) :
    List (Nat × Outcome T E) :=
  calls.map (fun c => (c.id, Outcome.resolved (jsGet cache c.key)))

/-- `rejectLoaders` (batch.ts lines 188-192): reject every queued call of the
round with the batch error. -/
def rejectCallsWith (e : E) (calls : List (QueuedCall Key)) : List (Nat × Outcome T E) :=
  calls.map (fun c => (c.id, Outcome.rejected e))

/-- The array branch of `cacheResults` (batch.ts lines 177-180):
`state.cache.set(key, batchResults[index])` for each indexed key, where an
out-of-range index reads `undefined`. -/
def cacheArr (cache : List (Key × Option T)) (keys : List Key) (vals : List T)
    (i : Nat) : List (Key × Option T) :=
  match keys with
  | [] => cache
  | k :: ks => cacheArr (mapSet cache k (vals.get? i)) ks vals (i + 1)

/-- The map branch of `cacheResults` (batch.ts lines 181-184):
`state.cache.set(key, batchResults.get(key))` for each batched key, where a
key absent from the returned map stores `undefined`. -/
def cacheKeyed (cache : List (Key × Option T)) (keys : List Key)
    (pairs : List (Key × T)) : List (Key × Option T) :=
  match keys with
  | [] => cache
  | k :: ks => cacheKeyed (mapSet cache k (mapGet pairs k)) ks pairs

/-- `cacheResults` (batch.ts lines 176-186). -/
def cacheResults (cache : List (Key × Option T)) (keys : List Key) :
    BatchResult Key T → List (Key × Option T)
  | .arr vals => cacheArr cache keys vals 0
  | .keyed pairs => cacheKeyed cache keys pairs

/-- `clearInflight` (batch.ts lines 170-174): delete every batched key from
the in-flight registry. -/
def clearInflight (inflight : List (Key × Nat)) (keys : List Key) : List (Key × Nat) :=
  keys.foldl (fun inf k => mapDelete inf k) inflight

/-- Registration of the batch promise (batch.ts lines 147-150):
`state.inflight.set(key, batchPromise)` for every batched key. -/
def registerInflight (inflight : List (Key × Nat)) (keys : List Key) (b : Nat) :
    List (Key × Nat) :=
  keys.foldl (fun inf k => mapSet inf k b) inflight

/-- Whether batch `b` has settled. -/
def batchSettled (batches : List (BatchRecord Key T E)) (b : Nat) : Bool :=
  match batches.get? b with
  | some r => r.isSettled
  | none => false

/-- A waiting round's `Promise.all` fulfills once every awaited batch promise
has settled (a rejected batch still fulfills its `batchPromise`, because the
`.catch` handler swallows the rejection — batch.ts lines 142-145). -/
def roundReady (batches : List (BatchRecord Key T E)) (w : WaitingRound Key) : Bool :=
  w.awaited.all (fun b => batchSettled batches b)

/-- Resume every waiting round all of whose awaited batches have settled:
its `await Promise.all` returns and it resolves its calls from the current
cache. -/
def releaseWaiters (s : LoaderState Key T E) : LoaderState Key T E :=
  let ready := s.waiting.filter (fun w => roundReady s.batches w)
  let rest := s.waiting.filter (fun w => !roundReady s.batches w)
  { s with
    waiting := rest,
    results := s.results ++ (ready.map (fun w => resolveCallsFrom s.cache w.calls)).flatten }

/-- Mark batch `b` settled. -/
def markSettled (batches : List (BatchRecord Key T E)) (b : Nat) :
    List (BatchRecord Key T E) :=
  batches.enum.map (fun p => if p.1 = b then { p.2 with isSettled := true } else p.2)

/-- One firing of `dispatch` (batch.ts lines 91-150): drain the queue, compute
`requestedKeys`, classify the deduplicated keys against cache and in-flight
registry, emit the `onBatch` record, then either run `resolveLoaders`
directly (empty batch), or invoke the user batch function, remember its
pending settlement, and register its promise for every batched key. -/
def doDispatch (batcher : List Key → BatchOutcome Key T E)
    (s : LoaderState Key T E) (keys : List Key) : LoaderState Key T E :=
  let calls := keys.enum.map (fun p => QueuedCall.mk (s.nextId + p.1) p.2)
  let cls := classifyKeys s.cache s.inflight (dedupeFirst keys)
  let info : BatchInfo Key := ⟨keys, cls.cachedKeys, cls.inflightKeys, cls.batchedKeys⟩
  let s1 := { s with infos := s.infos ++ [info], nextId := s.nextId + keys.length }
  if cls.batchedKeys.isEmpty then
    let aw := awaitSet s1.inflight calls
    if aw.isEmpty then
      { s1 with results := s1.results ++ resolveCallsFrom s1.cache calls }
    else
      { s1 with waiting := s1.waiting ++ [⟨calls, aw⟩] }
  else
    let b := s1.batches.length
    { s1 with
      batches := s1.batches ++ [⟨cls.batchedKeys, batcher cls.batchedKeys, false⟩],
      inflight := registerInflight s1.inflight cls.batchedKeys b,
      pending := s1.pending ++ [⟨calls, b⟩] }

/-- The `catch` handler of the batch promise (batch.ts lines 142-145):
`clearInflight()`, then `rejectLoaders(error)` rejects every call of the
triggering round immediately, without awaiting anything.  Afterwards every
waiting round whose awaited batches have now all settled resumes. -/
def settleErr (s : LoaderState Key T E) (b : Nat) (keys : List Key) (e : E) :
    LoaderState Key T E :=
  let s1 := { s with batches := markSettled s.batches b }
  let mine := s1.pending.filter (fun r => decide (r.batchId = b))
  let others := s1.pending.filter (fun r => decide (¬ r.batchId = b))
  releaseWaiters { s1 with
    inflight := clearInflight s1.inflight keys,
    pending := others,
    results := s1.results ++ (mine.map (fun r => rejectCallsWith e r.calls)).flatten }

/-- `resolveLoaders` for one round (batch.ts lines 153-158): snapshot the
`awaitInflight` set; with nothing to await, resolve every call of the round
from the cache at once, otherwise suspend the round on the awaited batches. -/
def distributeRound (acc : LoaderState Key T E) (rd : PendingRound Key) :
    LoaderState Key T E :=
  let aw := awaitSet acc.inflight rd.calls
  if aw.isEmpty then
    { acc with results := acc.results ++ resolveCallsFrom acc.cache rd.calls }
  else
    { acc with waiting := acc.waiting ++ [⟨rd.calls, aw⟩] }

/-- The `then` handler of the batch promise (batch.ts lines 137-141):
`cacheResults(results)`, `clearInflight()`, then the round's `resolveLoaders`
snapshots its `awaitInflight` set and either resolves its calls at once or
suspends.  Afterwards every waiting round whose awaited batches have now all
settled resumes. -/
def settleOk (s : LoaderState Key T E) (b : Nat) (keys : List Key)
    (r : BatchResult Key T) : LoaderState Key T E :=
  let s1 := { s with batches := markSettled s.batches b }
  let mine := s1.pending.filter (fun rd => decide (rd.batchId = b))
  let others := s1.pending.filter (fun rd => decide (¬ rd.batchId = b))
  let s2 := { s1 with
    cache := cacheResults s1.cache keys r,
    inflight := clearInflight s1.inflight keys,
    pending := others }
  releaseWaiters (mine.foldl distributeRound s2)

/-- Settlement of batch `b`'s promise (batch.ts lines 136-145): run the
`then` handler on fulfillment, the `catch` handler on rejection. -/
def doSettle (s : LoaderState Key T E) (b : Nat) : LoaderState Key T E :=
  match s.batches.get? b with
  | none => s
  | some rec1 =>
    if rec1.isSettled then s
    else
      match rec1.outcome with
      | .err e => settleErr s b rec1.keys e
      | .ok r => settleOk s b rec1.keys r

/-- An event of the event loop: one firing of the dispatch microtask for a
drained queue, or the settlement of one batch promise. -/
inductive Event (Key : Type) where
  | dispatch (keys : List Key)
  | settle (b : Nat)
deriving DecidableEq

/-- One interpreter step. -/
def step (batcher : List Key → BatchOutcome Key T E)
    (s : LoaderState Key T E) : Event Key → LoaderState Key T E
  | .dispatch keys => doDispatch batcher s keys
  | .settle b => doSettle s b

/-- Run a whole event trace from the fresh loader state. -/
def run (batcher : List Key → BatchOutcome Key T E) (events : List (Event Key)) :
    LoaderState Key T E :=
  events.foldl (step batcher) initState

/-- The enqueue step of the closure returned by `batch` (batch.ts lines
31-40): add the call to the queue and report whether a dispatch microtask was
scheduled (`state.queue.size === 1`). -/
def enqueue (queue : List Key) (key : Key) : List Key × Bool :=
  let q := queue ++ [key]
  (q, decide (q.length = 1))

/-- How many of the enqueues of `keys`, starting from `queue`, scheduled a
dispatch microtask. -/
def armCount (queue : List Key) : List Key → Nat
  | [] => 0
  | k :: ks =>
    let p := enqueue queue k
    (if p.2 then 1 else 0) + armCount p.1 ks

/-- The value a successful batch result assigns to a batched key: the entry at
the key's position for an array result (`undefined` past the end), the mapped
value for a keyed result (`undefined` when absent). -/
def resultFor (keys : List Key) (res : BatchResult Key T) (k : Key) : Option T :=
  match res with
  | .arr vals => vals.get? (keys.indexOf k)
  | .keyed pairs => mapGet pairs k

/-! ### Association-map lemmas -/

theorem mapGet_nil (k : Key) : mapGet ([] : List (Key × α)) k = none := rfl

theorem mapHas_eq_false_iff {m : List (Key × α)} {k : Key} :
    mapHas m k = false ↔ mapGet m k = none := by
  cases h : mapGet m k <;> simp [mapHas, h]

theorem jsGet_eq_none_of_not_has {cache : List (Key × Option T)} {k : Key}
    (h : mapHas cache k = false) : jsGet cache k = none := by
  rw [jsGet, mapHas_eq_false_iff.mp h]
  rfl

theorem mapGet_cons (p : Key × α) (m : List (Key × α)) (k : Key) :
    mapGet (p :: m) k = if p.1 = k then some p.2 else mapGet m k := by
  by_cases h : p.1 = k <;> simp [mapGet, List.find?_cons, h]

theorem mapHas_cons (p : Key × α) (m : List (Key × α)) (k : Key) :
    mapHas (p :: m) k = if p.1 = k then true else mapHas m k := by
  by_cases h : p.1 = k <;> simp [mapHas, mapGet_cons, h]

theorem mapGet_overwrite (m : List (Key × α)) (k k' : Key) (v : α) :
    mapGet (m.map (fun q => if q.1 = k' then (k', v) else q)) k
      = if k' = k then (if mapHas m k then some v else none) else mapGet m k := by
  induction m with
  | nil => by_cases h : k' = k <;> simp [mapGet_nil, mapHas, h]
  | cons p m ih =>
    by_cases hp : p.1 = k'
    · by_cases hk : k' = k
      · subst hk
        have : mapHas (p :: m) k' = true := by simp [mapHas_cons, hp]
        simp [List.map_cons, hp, mapGet_cons, this]
      · have hpk : ¬ p.1 = k := by rw [hp]; exact hk
        simp [List.map_cons, hp, mapGet_cons, hk, hpk, ih]
    · by_cases hpk : p.1 = k
      · have hk : ¬ k' = k := by
          intro h
          exact hp (by rw [hpk, h])
        have hk2 : ¬ k = k' := fun hc => hk hc.symm
        simp [List.map_cons, hp, mapGet_cons, hpk, hk, hk2]
      · have hhas : mapHas (p :: m) k = mapHas m k := by simp [mapHas_cons, hpk]
        simp [List.map_cons, hp, mapGet_cons, hpk, hhas, ih]

theorem mapGet_append_single (m : List (Key × α)) (k k' : Key) (v : α)
    (h : mapHas m k' = false) :
    mapGet (m ++ [(k', v)]) k = if k' = k then some v else mapGet m k := by
  induction m with
  | nil => by_cases hk : k' = k <;> simp [mapGet_cons, mapGet_nil, hk]
  | cons p m ih =>
    have hp : ¬ p.1 = k' := by
      intro hc
      rw [mapHas_cons, if_pos hc] at h
      cases h
    have hm : mapHas m k' = false := by
      rwa [mapHas_cons, if_neg hp] at h
    by_cases hpk : p.1 = k
    · have hk : ¬ k' = k := by
        intro hc
        exact hp (by rw [hpk, hc])
      simp [List.cons_append, mapGet_cons, hpk, hk]
    · simp [List.cons_append, mapGet_cons, hpk, ih hm]

theorem mapGet_mapSet (m : List (Key × α)) (k k' : Key) (v : α) :
    mapGet (mapSet m k' v) k = if k' = k then some v else mapGet m k := by
  rw [mapSet]
  by_cases hm : mapHas m k' = true
  · rw [if_pos hm, mapGet_overwrite]
    by_cases hk : k' = k
    · subst hk
      simp [hm]
    · simp [hk]
  · have hm' : mapHas m k' = false := by simpa using hm
    rw [if_neg hm, mapGet_append_single m k k' v hm']

theorem mapGet_mapSet_self (m : List (Key × α)) (k : Key) (v : α) :
    mapGet (mapSet m k v) k = some v := by
  simp [mapGet_mapSet]

theorem mapGet_mapSet_ne (m : List (Key × α)) {k k' : Key} (v : α) (h : ¬ k' = k) :
    mapGet (mapSet m k' v) k = mapGet m k := by
  simp [mapGet_mapSet, h]

theorem mapHas_mapSet_self (m : List (Key × α)) (k : Key) (v : α) :
    mapHas (mapSet m k v) k = true := by
  simp [mapHas, mapGet_mapSet_self]

theorem mapHas_mapSet_ne (m : List (Key × α)) {k k' : Key} (v : α) (h : ¬ k' = k) :
    mapHas (mapSet m k' v) k = mapHas m k := by
  simp [mapHas, mapGet_mapSet_ne m v h]

theorem mapGet_mapDelete (m : List (Key × α)) (k k' : Key) :
    mapGet (mapDelete m k') k = if k' = k then none else mapGet m k := by
  induction m with
  | nil => by_cases hk : k' = k <;> simp [mapDelete, mapGet_nil, hk]
  | cons p m ih =>
    by_cases hp : p.1 = k'
    · by_cases hk : k' = k
      · simpa [mapDelete, List.filter_cons, hp, hk] using ih
      · have hpk : ¬ p.1 = k := by rw [hp]; exact hk
        simpa [mapDelete, List.filter_cons, hp, mapGet_cons, hpk, hk] using ih
    · by_cases hpk : p.1 = k
      · have hk : ¬ k' = k := by
          intro hc
          exact hp (by rw [hpk, hc])
        have hk2 : ¬ k = k' := fun hc => hk hc.symm
        simp [mapDelete, List.filter_cons, hp, mapGet_cons, hpk, hk, hk2]
      · simpa [mapDelete, List.filter_cons, hp, mapGet_cons, hpk] using ih

theorem mapGet_mapDelete_self (m : List (Key × α)) (k : Key) :
    mapGet (mapDelete m k) k = none := by
  simp [mapGet_mapDelete]

theorem mapHas_mapDelete_self (m : List (Key × α)) (k : Key) :
    mapHas (mapDelete m k) k = false := by
  simp [mapHas, mapGet_mapDelete_self]

theorem mapGet_mapDelete_ne (m : List (Key × α)) {k k' : Key} (h : ¬ k' = k) :
    mapGet (mapDelete m k') k = mapGet m k := by
  simp [mapGet_mapDelete, h]

theorem mapHas_mapDelete_ne (m : List (Key × α)) {k k' : Key} (h : ¬ k' = k) :
    mapHas (mapDelete m k') k = mapHas m k := by
  simp [mapHas, mapGet_mapDelete_ne m h]

/-! ### clearInflight lemmas -/

theorem clearInflight_cons (inflight : List (Key × Nat)) (k : Key) (ks : List Key) :
    clearInflight inflight (k :: ks) = clearInflight (mapDelete inflight k) ks := rfl

theorem mapHas_clearInflight_of_not_has (ks : List Key)
    {inflight : List (Key × Nat)} {k : Key} (h : mapHas inflight k = false) :
    mapHas (clearInflight inflight ks) k = false := by
  induction ks generalizing inflight with
  | nil => exact h
  | cons k' ks ih =>
    rw [clearInflight_cons]
    by_cases hk : k' = k
    · subst hk
      exact ih (mapHas_mapDelete_self inflight k')
    · exact ih (by rw [mapHas_mapDelete_ne inflight hk]; exact h)

theorem mapHas_clearInflight_of_mem {ks : List Key}
    (inflight : List (Key × Nat)) {k : Key} (h : k ∈ ks) :
    mapHas (clearInflight inflight ks) k = false := by
  induction ks generalizing inflight with
  | nil => cases h
  | cons k' ks ih =>
    rw [clearInflight_cons]
    by_cases hk : k ∈ ks
    · exact ih _ hk
    · have : k' = k := by
        rcases List.mem_cons.mp h with h' | h'
        · exact h'.symm
        · exact absurd h' hk
      subst this
      exact mapHas_clearInflight_of_not_has ks (mapHas_mapDelete_self inflight k')

/-! ### dedupeFirst lemmas -/

theorem mem_dedupeFirst {l : List Key} {x : Key} : x ∈ dedupeFirst l ↔ x ∈ l := by
  induction l with
  | nil => simp [dedupeFirst]
  | cons k ks ih =>
    simp only [dedupeFirst, List.mem_cons, List.mem_filter, decide_eq_true_eq, ih]
    constructor
    · rintro (h | ⟨h, _⟩)
      · exact Or.inl h
      · exact Or.inr h
    · rintro (h | h)
      · exact Or.inl h
      · by_cases hx : x = k
        · exact Or.inl hx
        · exact Or.inr ⟨h, hx⟩

theorem nodup_dedupeFirst (l : List Key) : (dedupeFirst l).Nodup := by
  induction l with
  | nil => simp [dedupeFirst]
  | cons k ks ih =>
    rw [dedupeFirst]
    refine List.nodup_cons.mpr ⟨?_, ih.filter _⟩
    intro hmem
    have := (List.mem_filter.mp hmem).2
    simp at this

theorem dedupeFirst_pairwise (l : List Key) :
    (dedupeFirst l).Pairwise (fun x y => l.indexOf x < l.indexOf y) := by
  induction l with
  | nil => simp [dedupeFirst]
  | cons k ks ih =>
    rw [dedupeFirst]
    refine List.pairwise_cons.mpr ⟨?_, ?_⟩
    · intro y hy
      have hyk : ¬ y = k := by
        have := (List.mem_filter.mp hy).2
        simpa using this
      rw [List.indexOf_cons_self, List.indexOf_cons_ne _ (fun h => hyk h.symm)]
      exact Nat.succ_pos _
    · have h1 := (ih.filter (fun x => decide (¬ x = k)))
      refine h1.imp_of_mem ?_
      intro a b ha hb hlt
      have hak : ¬ a = k := by simpa using (List.mem_filter.mp ha).2
      have hbk : ¬ b = k := by simpa using (List.mem_filter.mp hb).2
      rw [List.indexOf_cons_ne _ (fun h => hak h.symm),
        List.indexOf_cons_ne _ (fun h => hbk h.symm)]
      exact Nat.succ_lt_succ hlt

/-! ### classifyKeys lemmas -/

theorem classify_batched (cache : List (Key × Option T)) (inflight : List (Key × Nat))
    (u : List Key) :
    (classifyKeys cache inflight u).batchedKeys
      = u.filter (fun k => !mapHas cache k && !mapHas inflight k) := by
  induction u with
  | nil => rfl
  | cons k ks ih =>
    rw [classifyKeys]
    by_cases hc : mapHas cache k = true
    · simp [hc, List.filter_cons, ih]
    · have hc' : mapHas cache k = false := by simpa using hc
      by_cases hi : mapHas inflight k = true
      · simp [hc', hi, List.filter_cons, ih]
      · have hi' : mapHas inflight k = false := by simpa using hi
        simp [hc', hi', List.filter_cons, ih]

theorem classify_cached (cache : List (Key × Option T)) (inflight : List (Key × Nat))
    (u : List Key) :
    (classifyKeys cache inflight u).cachedKeys = u.filter (fun k => mapHas cache k) := by
  induction u with
  | nil => rfl
  | cons k ks ih =>
    rw [classifyKeys]
    by_cases hc : mapHas cache k = true
    · simp [hc, List.filter_cons, ih]
    · have hc' : mapHas cache k = false := by simpa using hc
      by_cases hi : mapHas inflight k = true
      · simp [hc', hi, List.filter_cons, ih]
      · have hi' : mapHas inflight k = false := by simpa using hi
        simp [hc', hi', List.filter_cons, ih]

theorem mem_classify_batched {cache : List (Key × Option T)}
    {inflight : List (Key × Nat)} {u : List Key} {k : Key} :
    k ∈ (classifyKeys cache inflight u).batchedKeys
      ↔ k ∈ u ∧ mapHas cache k = false ∧ mapHas inflight k = false := by
  rw [classify_batched]
  simp [List.mem_filter]

/-! ### cacheResults lemmas -/

theorem cacheArr_preserve (ks : List Key) (vals : List T) :
    ∀ (i : Nat) (cache : List (Key × Option T)) (k : Key), k ∉ ks →
      mapGet (cacheArr cache ks vals i) k = mapGet cache k := by
  induction ks with
  | nil =>
    intro i cache k _
    rfl
  | cons k' ks ih =>
    intro i cache k h
    rw [cacheArr]
    have hk : ¬ k' = k := fun hc => h (hc ▸ List.mem_cons_self k' ks)
    rw [ih (i + 1) _ k (fun hm => h (List.mem_cons_of_mem _ hm)),
      mapGet_mapSet_ne _ _ hk]

theorem cacheKeyed_preserve (ks : List Key) (pairs : List (Key × T)) :
    ∀ (cache : List (Key × Option T)) (k : Key), k ∉ ks →
      mapGet (cacheKeyed cache ks pairs) k = mapGet cache k := by
  induction ks with
  | nil =>
    intro cache k _
    rfl
  | cons k' ks ih =>
    intro cache k h
    rw [cacheKeyed]
    have hk : ¬ k' = k := fun hc => h (hc ▸ List.mem_cons_self k' ks)
    rw [ih _ k (fun hm => h (List.mem_cons_of_mem _ hm)), mapGet_mapSet_ne _ _ hk]

theorem cacheArr_get (ks : List Key) (vals : List T) :
    ∀ (i : Nat) (cache : List (Key × Option T)) (k : Key), ks.Nodup → k ∈ ks →
      mapGet (cacheArr cache ks vals i) k = some (vals.get? (i + ks.indexOf k)) := by
  induction ks with
  | nil =>
    intro i cache k _ hk
    cases hk
  | cons k' ks ih =>
    intro i cache k hnd hk
    rw [cacheArr]
    by_cases hh : k' = k
    · subst hh
      have hnot : k' ∉ ks := (List.nodup_cons.mp hnd).1
      rw [cacheArr_preserve ks vals _ _ _ hnot, mapGet_mapSet_self,
        List.indexOf_cons_self]
      rw [Nat.add_zero]
    · have hmem : k ∈ ks := by
        rcases List.mem_cons.mp hk with h' | h'
        · exact absurd h'.symm hh
        · exact h'
      rw [ih (i + 1) _ k (List.nodup_cons.mp hnd).2 hmem, List.indexOf_cons_ne _ hh]
      have harith : i + 1 + List.indexOf k ks = i + (List.indexOf k ks + 1) := by omega
      rw [Nat.succ_eq_add_one, harith]

theorem cacheKeyed_get (ks : List Key) (pairs : List (Key × T)) :
    ∀ (cache : List (Key × Option T)) (k : Key), ks.Nodup → k ∈ ks →
      mapGet (cacheKeyed cache ks pairs) k = some (mapGet pairs k) := by
  induction ks with
  | nil =>
    intro cache k _ hk
    cases hk
  | cons k' ks ih =>
    intro cache k hnd hk
    rw [cacheKeyed]
    by_cases hh : k' = k
    · subst hh
      have hnot : k' ∉ ks := (List.nodup_cons.mp hnd).1
      rw [cacheKeyed_preserve ks pairs _ _ hnot, mapGet_mapSet_self]
    · have hmem : k ∈ ks := by
        rcases List.mem_cons.mp hk with h' | h'
        · exact absurd h'.symm hh
        · exact h'
      exact ih _ k (List.nodup_cons.mp hnd).2 hmem

theorem cacheResults_get (cache : List (Key × Option T)) (ks : List Key)
    (res : BatchResult Key T) {k : Key} (hnd : ks.Nodup) (hk : k ∈ ks) :
    mapGet (cacheResults cache ks res) k = some (resultFor ks res k) := by
  cases res with
  | arr vals =>
    rw [cacheResults, resultFor, cacheArr_get ks vals 0 cache k hnd hk]
    simp
  | keyed pairs =>
    rw [cacheResults, resultFor, cacheKeyed_get ks pairs cache k hnd hk]

theorem cacheResults_has (cache : List (Key × Option T)) (ks : List Key)
    (res : BatchResult Key T) {k : Key} (hnd : ks.Nodup) (hk : k ∈ ks) :
    mapHas (cacheResults cache ks res) k = true := by
  simp [mapHas, cacheResults_get cache ks res hnd hk]

theorem jsGet_cacheResults (cache : List (Key × Option T)) (ks : List Key)
    (res : BatchResult Key T) {k : Key} (hnd : ks.Nodup) (hk : k ∈ ks) :
    jsGet (cacheResults cache ks res) k = resultFor ks res k := by
  simp [jsGet, cacheResults_get cache ks res hnd hk]

/-! ### Scheduler arming lemmas -/

theorem armCount_of_ne_nil (ks : List Key) :
    ∀ {q : List Key}, q ≠ [] → armCount q ks = 0 := by
  induction ks with
  | nil =>
    intro q _
    rfl
  | cons k ks ih =>
    intro q hq
    match q with
    | q0 :: qs =>
      have h1 : ¬ ((q0 :: qs) ++ [k]).length = 1 := by
        simp
      simp only [armCount, enqueue, h1, decide_False, Bool.false_eq_true, if_false,
        Nat.zero_add]
      apply ih
      simp

theorem armCount_from_empty {k : Key} (ks : List Key) : armCount [] (k :: ks) = 1 := by
  have h1 : (([] : List Key) ++ [k]).length = 1 := by simp
  simp only [armCount, enqueue, h1, decide_True, if_true]
  rw [armCount_of_ne_nil ks (by simp)]

/-! ### Interpreter-step projection lemmas -/

theorem releaseWaiters_cache (s : LoaderState Key T E) :
    (releaseWaiters s).cache = s.cache := rfl

theorem releaseWaiters_inflight (s : LoaderState Key T E) :
    (releaseWaiters s).inflight = s.inflight := rfl

theorem releaseWaiters_infos (s : LoaderState Key T E) :
    (releaseWaiters s).infos = s.infos := rfl

theorem releaseWaiters_batches (s : LoaderState Key T E) :
    (releaseWaiters s).batches = s.batches := rfl

theorem releaseWaiters_nextId (s : LoaderState Key T E) :
    (releaseWaiters s).nextId = s.nextId := rfl

theorem releaseWaiters_results_mem {s : LoaderState Key T E} {x : Nat × Outcome T E}
    (h : x ∈ s.results) : x ∈ (releaseWaiters s).results := by
  rw [releaseWaiters]
  exact List.mem_append_left _ h

theorem distributeRound_cache (acc : LoaderState Key T E) (rd : PendingRound Key) :
    (distributeRound acc rd).cache = acc.cache := by
  rw [distributeRound]
  split <;> rfl

theorem distributeRound_inflight (acc : LoaderState Key T E) (rd : PendingRound Key) :
    (distributeRound acc rd).inflight = acc.inflight := by
  rw [distributeRound]
  split <;> rfl

theorem distributeRound_batches (acc : LoaderState Key T E) (rd : PendingRound Key) :
    (distributeRound acc rd).batches = acc.batches := by
  rw [distributeRound]
  split <;> rfl

theorem distributeRound_infos (acc : LoaderState Key T E) (rd : PendingRound Key) :
    (distributeRound acc rd).infos = acc.infos := by
  rw [distributeRound]
  split <;> rfl

theorem distributeRound_nextId (acc : LoaderState Key T E) (rd : PendingRound Key) :
    (distributeRound acc rd).nextId = acc.nextId := by
  rw [distributeRound]
  split <;> rfl

theorem foldl_distributeRound_cache (l : List (PendingRound Key))
    (s : LoaderState Key T E) : (l.foldl distributeRound s).cache = s.cache := by
  induction l generalizing s with
  | nil => rfl
  | cons rd l ih => rw [List.foldl_cons, ih, distributeRound_cache]

theorem foldl_distributeRound_inflight (l : List (PendingRound Key))
    (s : LoaderState Key T E) : (l.foldl distributeRound s).inflight = s.inflight := by
  induction l generalizing s with
  | nil => rfl
  | cons rd l ih => rw [List.foldl_cons, ih, distributeRound_inflight]

theorem foldl_distributeRound_batches (l : List (PendingRound Key))
    (s : LoaderState Key T E) : (l.foldl distributeRound s).batches = s.batches := by
  induction l generalizing s with
  | nil => rfl
  | cons rd l ih => rw [List.foldl_cons, ih, distributeRound_batches]

theorem foldl_distributeRound_infos (l : List (PendingRound Key))
    (s : LoaderState Key T E) : (l.foldl distributeRound s).infos = s.infos := by
  induction l generalizing s with
  | nil => rfl
  | cons rd l ih => rw [List.foldl_cons, ih, distributeRound_infos]

theorem foldl_distributeRound_nextId (l : List (PendingRound Key))
    (s : LoaderState Key T E) : (l.foldl distributeRound s).nextId = s.nextId := by
  induction l generalizing s with
  | nil => rfl
  | cons rd l ih => rw [List.foldl_cons, ih, distributeRound_nextId]

theorem get?_markSettled (batches : List (BatchRecord Key T E)) (b : Nat)
    {rec1 : BatchRecord Key T E} (h : batches.get? b = some rec1) :
    (markSettled batches b).get? b = some { rec1 with isSettled := true } := by
  rw [List.get?_eq_getElem?] at h
  rw [markSettled, List.get?_eq_getElem?, List.getElem?_map, List.getElem?_enum, h]
  simp

theorem batchSettled_markSettled {batches : List (BatchRecord Key T E)} {b : Nat}
    {rec1 : BatchRecord Key T E} (h : batches.get? b = some rec1) :
    batchSettled (markSettled batches b) b = true := by
  rw [batchSettled, get?_markSettled batches b h]

theorem doSettle_eq_err {s : LoaderState Key T E} {b : Nat}
    {rec1 : BatchRecord Key T E} {e : E} (hget : s.batches.get? b = some rec1)
    (hns : rec1.isSettled = false) (herr : rec1.outcome = .err e) :
    doSettle s b = settleErr s b rec1.keys e := by
  rw [doSettle, hget]
  simp [hns, herr]

theorem doSettle_eq_ok {s : LoaderState Key T E} {b : Nat}
    {rec1 : BatchRecord Key T E} {r : BatchResult Key T}
    (hget : s.batches.get? b = some rec1) (hns : rec1.isSettled = false)
    (hok : rec1.outcome = .ok r) :
    doSettle s b = settleOk s b rec1.keys r := by
  rw [doSettle, hget]
  simp [hns, hok]

theorem settleErr_cache (s : LoaderState Key T E) (b : Nat) (keys : List Key) (e : E) :
    (settleErr s b keys e).cache = s.cache := rfl

theorem settleErr_inflight (s : LoaderState Key T E) (b : Nat) (keys : List Key)
    (e : E) : (settleErr s b keys e).inflight = clearInflight s.inflight keys := rfl

theorem settleErr_infos (s : LoaderState Key T E) (b : Nat) (keys : List Key) (e : E) :
    (settleErr s b keys e).infos = s.infos := rfl

theorem settleOk_cache (s : LoaderState Key T E) (b : Nat) (keys : List Key)
    (r : BatchResult Key T) :
    (settleOk s b keys r).cache = cacheResults s.cache keys r := by
  rw [settleOk, releaseWaiters_cache, foldl_distributeRound_cache]

theorem settleOk_inflight (s : LoaderState Key T E) (b : Nat) (keys : List Key)
    (r : BatchResult Key T) :
    (settleOk s b keys r).inflight = clearInflight s.inflight keys := by
  rw [settleOk, releaseWaiters_inflight, foldl_distributeRound_inflight]

theorem settleOk_infos (s : LoaderState Key T E) (b : Nat) (keys : List Key)
    (r : BatchResult Key T) : (settleOk s b keys r).infos = s.infos := by
  rw [settleOk, releaseWaiters_infos, foldl_distributeRound_infos]

theorem settleOk_nextId (s : LoaderState Key T E) (b : Nat) (keys : List Key)
    (r : BatchResult Key T) : (settleOk s b keys r).nextId = s.nextId := by
  rw [settleOk, releaseWaiters_nextId, foldl_distributeRound_nextId]

theorem doSettle_infos (s : LoaderState Key T E) (b : Nat) :
    (doSettle s b).infos = s.infos := by
  rw [doSettle]
  cases hget : s.batches.get? b with
  | none => rfl
  | some rec1 =>
    by_cases hs : rec1.isSettled = true
    · simp [hs]
    · have hs' : rec1.isSettled = false := by simpa using hs
      cases hout : rec1.outcome with
      | err e => simp [hs', hout, settleErr_infos]
      | ok r => simp [hs', hout, settleOk_infos]

theorem doDispatch_infos (batcher : List Key → BatchOutcome Key T E)
    (s : LoaderState Key T E) (keys : List Key) :
    (doDispatch batcher s keys).infos = s.infos ++
      [⟨keys, (classifyKeys s.cache s.inflight (dedupeFirst keys)).cachedKeys,
        (classifyKeys s.cache s.inflight (dedupeFirst keys)).inflightKeys,
        (classifyKeys s.cache s.inflight (dedupeFirst keys)).batchedKeys⟩] := by
  simp only [doDispatch]
  split
  · split <;> rfl
  · rfl

theorem doDispatch_batches_cases (batcher : List Key → BatchOutcome Key T E)
    (s : LoaderState Key T E) (keys : List Key) :
    (doDispatch batcher s keys).batches = s.batches ∨
    (doDispatch batcher s keys).batches = s.batches ++
      [⟨(classifyKeys s.cache s.inflight (dedupeFirst keys)).batchedKeys,
        batcher (classifyKeys s.cache s.inflight (dedupeFirst keys)).batchedKeys,
        false⟩] := by
  simp only [doDispatch]
  split
  · split
    · exact Or.inl rfl
    · exact Or.inl rfl
  · exact Or.inr rfl

theorem doDispatch_batches_pos (batcher : List Key → BatchOutcome Key T E)
    (s : LoaderState Key T E) (keys : List Key)
    (h : (classifyKeys s.cache s.inflight (dedupeFirst keys)).batchedKeys ≠ []) :
    (doDispatch batcher s keys).batches = s.batches ++
      [⟨(classifyKeys s.cache s.inflight (dedupeFirst keys)).batchedKeys,
        batcher (classifyKeys s.cache s.inflight (dedupeFirst keys)).batchedKeys,
        false⟩] := by
  have hie : (classifyKeys s.cache s.inflight (dedupeFirst keys)).batchedKeys.isEmpty
      = false := by
    rcases hck : (classifyKeys s.cache s.inflight (dedupeFirst keys)).batchedKeys with
      _ | ⟨a, l⟩
    · exact absurd hck h
    · rfl
  simp only [doDispatch, hie, Bool.false_eq_true, if_false]

theorem doDispatch_single_cached (batcher : List Key → BatchOutcome Key T E)
    (s : LoaderState Key T E) (k : Key) (hc : mapHas s.cache k = true)
    (hi : mapGet s.inflight k = none) :
    (doDispatch batcher s [k]).batches = s.batches ∧
    (doDispatch batcher s [k]).results
      = s.results ++ [(s.nextId, Outcome.resolved (jsGet s.cache k))] := by
  have hcls : classifyKeys s.cache s.inflight [k] = ⟨[], [k], [], []⟩ := by
    simp [classifyKeys, hc]
  constructor <;>
    simp [doDispatch, dedupeFirst, hcls, awaitSet, hi, resolveCallsFrom,
      List.enum, List.enumFrom]

/-! ### Claim theorems -/

/-- C3: every key passed to the batch function (every element of
`batchedKeys`) is, at the moment of dispatch, absent from the cache and from
the in-flight registry; and every invocation record a dispatch creates has
exactly those keys as its argument. -/
theorem spec_C3_batched_keys_fresh (batcher : List Key → BatchOutcome Key T E)
    (s : LoaderState Key T E) (keys : List Key) :
    (∀ k ∈ (classifyKeys s.cache s.inflight (dedupeFirst keys)).batchedKeys,
        mapHas s.cache k = false ∧ mapHas s.inflight k = false) ∧
    (∀ r ∈ (doDispatch batcher s keys).batches,
        r ∈ s.batches ∨
          r.keys = (classifyKeys s.cache s.inflight (dedupeFirst keys)).batchedKeys) := by
  constructor
  · intro k hk
    exact (mem_classify_batched.mp hk).2
  · intro r hr
    rcases doDispatch_batches_cases batcher s keys with h | h
    · rw [h] at hr
      exact Or.inl hr
    · rw [h] at hr
      rcases List.mem_append.mp hr with h' | h'
      · exact Or.inl h'
      · right
        rw [List.mem_singleton.mp h']

/-- C4: a dispatch invokes the batch function at most once; any invocation it
creates has as its argument exactly the deduplicated (first occurrence kept,
in order) list of the round's requested keys that are neither cached nor
in flight — the argument is `Nodup`, contains exactly the fresh requested
keys, and is sorted by first occurrence among the requests; moreover the
scheduler arms exactly one dispatch microtask per round. -/
theorem spec_C4_single_invocation_dedup (batcher : List Key → BatchOutcome Key T E)
    (s : LoaderState Key T E) (keys : List Key) :
    (doDispatch batcher s keys).batches.length ≤ s.batches.length + 1 ∧
    (∀ r ∈ (doDispatch batcher s keys).batches,
        r ∈ s.batches ∨
          r = ⟨(classifyKeys s.cache s.inflight (dedupeFirst keys)).batchedKeys,
            batcher (classifyKeys s.cache s.inflight (dedupeFirst keys)).batchedKeys,
            false⟩) ∧
    (classifyKeys s.cache s.inflight (dedupeFirst keys)).batchedKeys
      = (dedupeFirst keys).filter
          (fun k => !mapHas s.cache k && !mapHas s.inflight k) ∧
    (classifyKeys s.cache s.inflight (dedupeFirst keys)).batchedKeys.Nodup ∧
    (∀ k, k ∈ (classifyKeys s.cache s.inflight (dedupeFirst keys)).batchedKeys ↔
        k ∈ keys ∧ mapHas s.cache k = false ∧ mapHas s.inflight k = false) ∧
    (classifyKeys s.cache s.inflight (dedupeFirst keys)).batchedKeys.Pairwise
      (fun x y => keys.indexOf x < keys.indexOf y) ∧
    (keys ≠ [] → armCount [] keys = 1) := by
  refine ⟨?_, ?_, classify_batched s.cache s.inflight (dedupeFirst keys), ?_, ?_, ?_, ?_⟩
  · rcases doDispatch_batches_cases batcher s keys with h | h
    · rw [h]
      omega
    · rw [h]
      simp
  · intro r hr
    rcases doDispatch_batches_cases batcher s keys with h | h
    · rw [h] at hr
      exact Or.inl hr
    · rw [h] at hr
      rcases List.mem_append.mp hr with h' | h'
      · exact Or.inl h'
      · exact Or.inr (List.mem_singleton.mp h')
  · rw [classify_batched]
    exact (nodup_dedupeFirst keys).filter _
  · intro k
    rw [mem_classify_batched, mem_dedupeFirst]
  · rw [classify_batched]
    exact (dedupeFirst_pairwise keys).filter _
  · intro hne
    match keys, hne with
    | k :: ks, _ => exact armCount_from_empty ks

/-- C9: every dispatch appends exactly one instrumentation record, whose
`requestedKeys` field is the round's key list verbatim (duplicates and order
kept); this happens unconditionally, in particular also when `batchedKeys` is
empty; and a batch settlement appends no record. -/
theorem spec_C9_onBatch_record (batcher : List Key → BatchOutcome Key T E)
    (s : LoaderState Key T E) (keys : List Key) (b : Nat) :
    (doDispatch batcher s keys).infos = s.infos ++
      [⟨keys, (classifyKeys s.cache s.inflight (dedupeFirst keys)).cachedKeys,
        (classifyKeys s.cache s.inflight (dedupeFirst keys)).inflightKeys,
        (classifyKeys s.cache s.inflight (dedupeFirst keys)).batchedKeys⟩] ∧
    (doSettle s b).infos = s.infos :=
  ⟨doDispatch_infos batcher s keys, doSettle_infos s b⟩

/-- C1 (amended): when a round's batch fails, `rejectLoaders` rejects every
call of that round with that error — including calls whose key was classified
cached or in flight under a different batch, which the original claim said
were unaffected. -/
theorem spec_C1_round_failure_rejects_all (s : LoaderState Key T E) (b : Nat)
    (rec1 : BatchRecord Key T E) (e : E) (r : PendingRound Key) (c : QueuedCall Key)
    (hget : s.batches.get? b = some rec1) (hns : rec1.isSettled = false)
    (herr : rec1.outcome = .err e) (hr : r ∈ s.pending) (hbid : r.batchId = b)
    (hc : c ∈ r.calls) :
    (c.id, Outcome.rejected e) ∈ (doSettle s b).results := by
  rw [doSettle_eq_err hget hns herr]
  simp only [settleErr]
  apply releaseWaiters_results_mem
  apply List.mem_append_right
  apply List.mem_flatten.mpr
  refine ⟨rejectCallsWith e r.calls, ?_, ?_⟩
  · refine List.mem_map.mpr ⟨r, ?_, rfl⟩
    exact List.mem_filter.mpr ⟨hr, by simp [hbid]⟩
  · exact List.mem_map.mpr ⟨c, hc, rfl⟩

/-- C2 (amended): a call queued in a later round whose key was classified in
flight under an earlier batch does NOT fail when that batch fails: the
`.catch` handler swallows the rejection, so once the failed batch settles the
waiting round resumes and the call is resolved with `undefined` (the failed
key was never written to the cache). -/
theorem spec_C2_inflight_failure_resolves_undefined (s : LoaderState Key T E)
    (b : Nat) (rec1 : BatchRecord Key T E) (e : E) (w : WaitingRound Key)
    (c : QueuedCall Key) (hget : s.batches.get? b = some rec1)
    (hns : rec1.isSettled = false) (herr : rec1.outcome = .err e)
    (hw : w ∈ s.waiting) (haw : w.awaited = [b]) (hc : c ∈ w.calls)
    (hnc : mapHas s.cache c.key = false) :
    (c.id, Outcome.resolved none) ∈ (doSettle s b).results := by
  rw [doSettle_eq_err hget hns herr]
  simp only [settleErr, releaseWaiters]
  apply List.mem_append_right
  apply List.mem_flatten.mpr
  refine ⟨resolveCallsFrom s.cache w.calls, ?_, ?_⟩
  · refine List.mem_map.mpr ⟨w, ?_, rfl⟩
    refine List.mem_filter.mpr ⟨hw, ?_⟩
    rw [roundReady, haw]
    simp [batchSettled_markSettled hget]
  · refine List.mem_map.mpr ⟨c, hc, ?_⟩
    rw [jsGet_eq_none_of_not_has hnc]

/-- C8: when a batch fails, no key is written to the cache (the cache is
unchanged), every key of the failed batch is removed from the in-flight
registry, and a subsequent dispatch requesting such a key classifies it as
fresh and starts a new batch invocation containing it. -/
theorem spec_C8_failure_atomicity (batcher : List Key → BatchOutcome Key T E)
    (s : LoaderState Key T E) (b : Nat) (rec1 : BatchRecord Key T E) (e : E)
    (k : Key) (keys2 : List Key) (hget : s.batches.get? b = some rec1)
    (hns : rec1.isSettled = false) (herr : rec1.outcome = .err e)
    (hkb : k ∈ rec1.keys) (hnc : mapHas s.cache k = false) (hreq : k ∈ keys2) :
    (doSettle s b).cache = s.cache ∧
    (∀ k2, k2 ∈ rec1.keys → mapHas (doSettle s b).inflight k2 = false) ∧
    k ∈ (classifyKeys (doSettle s b).cache (doSettle s b).inflight
        (dedupeFirst keys2)).batchedKeys ∧
    (doDispatch batcher (doSettle s b) keys2).batches
      = (doSettle s b).batches ++
        [⟨(classifyKeys (doSettle s b).cache (doSettle s b).inflight
            (dedupeFirst keys2)).batchedKeys,
          batcher (classifyKeys (doSettle s b).cache (doSettle s b).inflight
            (dedupeFirst keys2)).batchedKeys, false⟩] := by
  rw [doSettle_eq_err hget hns herr]
  have hcache : (settleErr s b rec1.keys e).cache = s.cache := settleErr_cache s b rec1.keys e
  have hinf : ∀ k2, k2 ∈ rec1.keys →
      mapHas (settleErr s b rec1.keys e).inflight k2 = false := by
    intro k2 hk2
    rw [settleErr_inflight]
    exact mapHas_clearInflight_of_mem _ hk2
  have hmem : k ∈ (classifyKeys (settleErr s b rec1.keys e).cache
      (settleErr s b rec1.keys e).inflight (dedupeFirst keys2)).batchedKeys := by
    refine mem_classify_batched.mpr ⟨mem_dedupeFirst.mpr hreq, ?_, hinf k hkb⟩
    rw [hcache]
    exact hnc
  exact ⟨hcache, hinf, hmem,
    doDispatch_batches_pos batcher _ keys2 (List.ne_nil_of_mem hmem)⟩

/-- C10: when a successful batch assigns "no value" to a batched key (absent
from a returned keyed map, or past the end of a returned array), the
dispatcher stores `undefined` in the cache under that key, so a later
dispatch for that key classifies it as cached and resolves it to `undefined`
without invoking the batch function again. -/
theorem spec_C10_missing_value_cached_undefined
    (batcher : List Key → BatchOutcome Key T E) (s : LoaderState Key T E)
    (b : Nat) (rec1 : BatchRecord Key T E) (res : BatchResult Key T) (k : Key)
    (hget : s.batches.get? b = some rec1) (hns : rec1.isSettled = false)
    (hok : rec1.outcome = .ok res) (hnd : rec1.keys.Nodup) (hkb : k ∈ rec1.keys)
    (hnv : resultFor rec1.keys res k = none) :
    mapHas (doSettle s b).cache k = true ∧
    jsGet (doSettle s b).cache k = none ∧
    (doDispatch batcher (doSettle s b) [k]).batches = (doSettle s b).batches ∧
    (doDispatch batcher (doSettle s b) [k]).results
      = (doSettle s b).results ++ [((doSettle s b).nextId, Outcome.resolved none)] := by
  rw [doSettle_eq_ok hget hns hok]
  have hcache : (settleOk s b rec1.keys res).cache
      = cacheResults s.cache rec1.keys res := settleOk_cache s b rec1.keys res
  have hhas : mapHas (settleOk s b rec1.keys res).cache k = true := by
    rw [hcache]
    exact cacheResults_has _ _ _ hnd hkb
  have hjs : jsGet (settleOk s b rec1.keys res).cache k = none := by
    rw [hcache, jsGet_cacheResults _ _ _ hnd hkb, hnv]
  have hinf : mapGet (settleOk s b rec1.keys res).inflight k = none := by
    rw [settleOk_inflight]
    exact mapHas_eq_false_iff.mp (mapHas_clearInflight_of_mem _ hkb)
  have hd := doDispatch_single_cached batcher (settleOk s b rec1.keys res) k hhas hinf
  refine ⟨hhas, hjs, hd.1, ?_⟩
  rw [hd.2, hjs]

/-- C5: if the batch function maps `[k]` to `[v]`, then a round loading `k`
resolves that call to `v`, and a second round loading `k` again resolves to
`v` while the batch function has still been invoked only once (one invocation
record, for `[k]`). -/
theorem spec_C5_round_trip (batcher : List Key → BatchOutcome Key T E) (k : Key)
    (v : T) (hb : batcher [k] = .ok (.arr [v])) :
    (run batcher [.dispatch [k], .settle 0, .dispatch [k]]).results
        = [(0, Outcome.resolved (some v)), (1, Outcome.resolved (some v))] ∧
    (run batcher [.dispatch [k], .settle 0, .dispatch [k]]).batches.map
        (fun r => r.keys) = [[k]] := by
  constructor <;>
  simp [run, step, doDispatch, doSettle, settleOk, settleErr, distributeRound,
    releaseWaiters, roundReady, batchSettled, markSettled, classifyKeys,
    dedupeFirst, mapHas, mapGet, mapSet, mapDelete, jsGet, awaitSet,
    resolveCallsFrom, rejectCallsWith, cacheResults, cacheArr, cacheKeyed,
    clearInflight, registerInflight, initState, hb, List.enum, List.enumFrom,
    List.find?, List.filter, List.filterMap, List.get?]

/-- C6: two loads of the same key in one round produce exactly one occurrence
of the key in `batchedKeys` (the instrumentation record is
`{requestedKeys := [k, k], batchedKeys := [k]}`), and both calls resolve to
the same value. -/
theorem spec_C6_idempotent_duplication (batcher : List Key → BatchOutcome Key T E)
    (k : Key) (v : T) (hb : batcher [k] = .ok (.arr [v])) :
    (run batcher [.dispatch [k, k], .settle 0]).infos = [⟨[k, k], [], [], [k]⟩] ∧
    (run batcher [.dispatch [k, k], .settle 0]).results
        = [(0, Outcome.resolved (some v)), (1, Outcome.resolved (some v))] := by
  constructor <;>
  simp [run, step, doDispatch, doSettle, settleOk, settleErr, distributeRound,
    releaseWaiters, roundReady, batchSettled, markSettled, classifyKeys,
    dedupeFirst, mapHas, mapGet, mapSet, mapDelete, jsGet, awaitSet,
    resolveCallsFrom, rejectCallsWith, cacheResults, cacheArr, cacheKeyed,
    clearInflight, registerInflight, initState, hb, List.enum, List.enumFrom,
    List.find?, List.filter, List.filterMap, List.get?]

/-- C7: when a second round loads `k` while the first round's batch for `k`
is still in flight and that batch then succeeds, both calls resolve to the
same value and the batch function was invoked exactly once, for `[k]`. -/
theorem spec_C7_inflight_joining (batcher : List Key → BatchOutcome Key T E)
    (k : Key) (v : T) (hb : batcher [k] = .ok (.arr [v])) :
    (run batcher [.dispatch [k], .dispatch [k], .settle 0]).results
        = [(0, Outcome.resolved (some v)), (1, Outcome.resolved (some v))] ∧
    (run batcher [.dispatch [k], .dispatch [k], .settle 0]).batches.map
        (fun r => r.keys) = [[k]] := by
  constructor <;>
  simp [run, step, doDispatch, doSettle, settleOk, settleErr, distributeRound,
    releaseWaiters, roundReady, batchSettled, markSettled, classifyKeys,
    dedupeFirst, mapHas, mapGet, mapSet, mapDelete, jsGet, awaitSet,
    resolveCallsFrom, rejectCallsWith, cacheResults, cacheArr, cacheKeyed,
    clearInflight, registerInflight, initState, hb, List.enum, List.enumFrom,
    List.find?, List.filter, List.filterMap, List.get?]

/-- C1 (counterexample): round 1 caches key `0`; round 2 requests `0` (which
classifies as cached) together with the fresh key `1`, and the batch for
`[1]` fails with error `7`.  The claim says the call for the cached key `0`
still resolves to its value `10`; in fact `rejectLoaders` rejects it (call id
`1`) with the error `7`, as it rejects every call of the round. -/
theorem spec_C1_counterexample :
    (run (fun keys => if keys = [0] then BatchOutcome.ok (BatchResult.arr [10])
        else BatchOutcome.err 7)
      [.dispatch [0], .settle 0, .dispatch [0, 1], .settle 1]).results
    = [(0, Outcome.resolved (some 10)), (1, Outcome.rejected 7),
       (2, Outcome.rejected 7)] := by
  decide

/-- C2 (counterexample): round 1 dispatches a batch for key `0` which will
fail with error `7`; round 2 requests `0` while that batch is in flight (call
id `1` joins the in-flight entry).  The claim says call `1` fails with the
batch's error; in fact, once the failed batch settles, call `1` is resolved
with `undefined` (`none`) because the `.catch` handler swallows the rejection
and the failed key was never cached. -/
theorem spec_C2_counterexample :
    (run (fun _ : List Nat => (BatchOutcome.err 7 : BatchOutcome Nat Nat Nat))
      [.dispatch [0], .dispatch [0], .settle 0]).results
    = [(0, Outcome.rejected 7), (1, Outcome.resolved none)] := by
  decide

/-- Witness for C1: a concrete settlement of a failed batch in a round whose
calls include one for an unrelated (cached-classified) key; that call is
rejected with the batch error. -/
theorem spec_C1_witness :
    ((1 : Nat), Outcome.rejected (7 : Nat)) ∈
      (doSettle (⟨[((0 : Nat), some (10 : Nat))], [],
        [⟨[1], BatchOutcome.err 7, false⟩], [⟨[⟨1, 0⟩, ⟨2, 1⟩], 0⟩], [], [], [],
        3⟩ : LoaderState Nat Nat Nat) 0).results :=
  spec_C1_round_failure_rejects_all _ 0 ⟨[1], BatchOutcome.err 7, false⟩ 7
    ⟨[⟨1, 0⟩, ⟨2, 1⟩], 0⟩ ⟨1, 0⟩ rfl rfl rfl (by decide) rfl (by decide)

/-- Witness for C2: a concrete waiting round awaiting a failed batch; its
call is resolved with `undefined`. -/
theorem spec_C2_witness :
    ((1 : Nat), Outcome.resolved (none : Option Nat)) ∈
      (doSettle (⟨[], [((0 : Nat), 0)], [⟨[0], BatchOutcome.err (7 : Nat), false⟩],
        [], [⟨[⟨1, 0⟩], [0]⟩], [], [], 2⟩ : LoaderState Nat Nat Nat) 0).results :=
  spec_C2_inflight_failure_resolves_undefined _ 0 ⟨[0], BatchOutcome.err 7, false⟩
    7 ⟨[⟨1, 0⟩], [0]⟩ ⟨1, 0⟩ rfl rfl rfl (by decide) rfl (by decide) rfl

/-- Witness for C3: in a state caching key `1` with key `2` in flight, a
round requesting `[0, 1, 2, 0]` puts `0` into `batchedKeys`, and `0` is
absent from both cache and in-flight registry. -/
theorem spec_C3_witness :
    mapHas ([((1 : Nat), some (5 : Nat))]) 0 = false ∧
    mapHas ([((2 : Nat), (9 : Nat))]) 0 = false :=
  (spec_C3_batched_keys_fresh (fun _ => BatchOutcome.err (0 : Nat))
    (⟨[(1, some 5)], [(2, 9)], [], [], [], [], [], 0⟩ : LoaderState Nat Nat Nat)
    [0, 1, 2, 0]).1 0 (by decide)

/-- Witness for C4: from the fresh state, a round requesting `[0, 0, 1]`
creates exactly the invocation record for the deduplicated `[0, 1]`, and the
scheduler arms exactly one dispatch. -/
theorem spec_C4_witness :
    ((⟨[0, 1], BatchOutcome.ok (BatchResult.arr [0, 1]), false⟩ :
        BatchRecord Nat Nat Nat) ∈ ([] : List (BatchRecord Nat Nat Nat)) ∨
      (⟨[0, 1], BatchOutcome.ok (BatchResult.arr [0, 1]), false⟩ :
        BatchRecord Nat Nat Nat)
        = ⟨[0, 1], BatchOutcome.ok (BatchResult.arr [0, 1]), false⟩) ∧
    armCount ([] : List Nat) [0, 0, 1] = 1 := by
  have h := spec_C4_single_invocation_dedup
    (fun ks => BatchOutcome.ok (BatchResult.arr ks))
    (initState : LoaderState Nat Nat Nat) [0, 0, 1]
  exact ⟨h.2.1 ⟨[0, 1], BatchOutcome.ok (BatchResult.arr [0, 1]), false⟩ (by decide),
    h.2.2.2.2.2.2 (by decide)⟩

/-- Witness for C5 at key `0`, value `10`. -/
theorem spec_C5_witness :
    (run (fun keys => if keys = [0] then BatchOutcome.ok (BatchResult.arr [10])
        else BatchOutcome.err (0 : Nat))
      [.dispatch [0], .settle 0, .dispatch [0]]).results
    = [(0, Outcome.resolved (some 10)), (1, Outcome.resolved (some 10))] :=
  (spec_C5_round_trip _ 0 10 rfl).1

/-- Witness for C6 at key `0`, value `10`. -/
theorem spec_C6_witness :
    (run (fun keys => if keys = [0] then BatchOutcome.ok (BatchResult.arr [10])
        else BatchOutcome.err (0 : Nat))
      [.dispatch [0, 0], .settle 0]).infos
    = [⟨[0, 0], [], [], [0]⟩] :=
  (spec_C6_idempotent_duplication _ 0 10 rfl).1

/-- Witness for C7 at key `0`, value `10`. -/
theorem spec_C7_witness :
    (run (fun keys => if keys = [0] then BatchOutcome.ok (BatchResult.arr [10])
        else BatchOutcome.err (0 : Nat))
      [.dispatch [0], .dispatch [0], .settle 0]).results
    = [(0, Outcome.resolved (some 10)), (1, Outcome.resolved (some 10))] :=
  (spec_C7_inflight_joining _ 0 10 rfl).1

/-- Witness for C8: settling the failed batch for key `1` leaves the cache
unchanged, clears `1` from the in-flight registry, and a following round
requesting `[1]` classifies `1` as fresh again. -/
theorem spec_C8_witness :
    (doSettle (⟨[], [((1 : Nat), 0)], [⟨[1], BatchOutcome.err (7 : Nat), false⟩],
        [⟨[⟨0, 1⟩], 0⟩], [], [], [], 1⟩ : LoaderState Nat Nat Nat) 0).cache = [] ∧
    mapHas (doSettle (⟨[], [((1 : Nat), 0)],
        [⟨[1], BatchOutcome.err (7 : Nat), false⟩],
        [⟨[⟨0, 1⟩], 0⟩], [], [], [], 1⟩ : LoaderState Nat Nat Nat) 0).inflight 1
      = false ∧
    (1 : Nat) ∈ (classifyKeys
        (doSettle (⟨[], [((1 : Nat), 0)],
          [⟨[1], BatchOutcome.err (7 : Nat), false⟩],
          [⟨[⟨0, 1⟩], 0⟩], [], [], [], 1⟩ : LoaderState Nat Nat Nat) 0).cache
        (doSettle (⟨[], [((1 : Nat), 0)],
          [⟨[1], BatchOutcome.err (7 : Nat), false⟩],
          [⟨[⟨0, 1⟩], 0⟩], [], [], [], 1⟩ : LoaderState Nat Nat Nat) 0).inflight
        (dedupeFirst [1])).batchedKeys := by
  have h := spec_C8_failure_atomicity (fun _ => BatchOutcome.err (0 : Nat))
    (⟨[], [(1, 0)], [⟨[1], BatchOutcome.err 7, false⟩], [⟨[⟨0, 1⟩], 0⟩], [], [],
      [], 1⟩ : LoaderState Nat Nat Nat) 0 ⟨[1], BatchOutcome.err 7, false⟩ 7 1 [1]
    rfl rfl rfl (by decide) rfl (by decide)
  exact ⟨h.1, h.2.1 1 (by decide), h.2.2.1⟩

/-- Witness for C10: a batch for key `1` fulfills with an empty keyed map, so
`1` is cached as `undefined`; a following round loading `1` resolves it to
`undefined` without a new batch invocation. -/
theorem spec_C10_witness :
    mapHas (doSettle (⟨[], [((1 : Nat), 0)],
        [⟨[1], BatchOutcome.ok (BatchResult.keyed ([] : List (Nat × Nat))), false⟩],
        [], [], [], [], 5⟩ : LoaderState Nat Nat Nat) 0).cache 1 = true ∧
    jsGet (doSettle (⟨[], [((1 : Nat), 0)],
        [⟨[1], BatchOutcome.ok (BatchResult.keyed ([] : List (Nat × Nat))), false⟩],
        [], [], [], [], 5⟩ : LoaderState Nat Nat Nat) 0).cache 1 = none := by
  have h := spec_C10_missing_value_cached_undefined
    (fun _ => BatchOutcome.err (0 : Nat))
    (⟨[], [(1, 0)], [⟨[1], BatchOutcome.ok (BatchResult.keyed []), false⟩], [],
      [], [], [], 5⟩ : LoaderState Nat Nat Nat) 0
    ⟨[1], BatchOutcome.ok (BatchResult.keyed []), false⟩ (BatchResult.keyed []) 1
    rfl rfl rfl (by decide) (by decide) rfl
  exact ⟨h.1, h.2.1⟩

end BatchLoader
